import Mathlib

/-! testman: fixture construction, suite runner and test-context naming.

A shallow embedding of `src/testman.go` and `src/t.go`.

* Go strings are byte sequences (`GoString`); `strings.Index` and the slice
  expression `s[k:]` are modelled on bytes, the slice bound check included.
  Go `int` is modelled by `Int`: the indices computed are at most the length
  of a string plus two, far from the 64-bit bounds.
* A call that does not return normally stops in one of two ways (`Abort`):
  `goexit` (what `FailNow`/`SkipNow`, hence `Fatalf`/`Skip`, do through
  `runtime.Goexit`) or `panic`.
* `reflect.Value` is modelled by what the code observes of it (`Value`), with
  the panics package reflect documents for `Type`, `MethodByName`, `Field`,
  `CallSlice` and `Set`.
* The runner (`Suite`, `Run`) is modelled in the sequential model: a sub-test
  started with `t.Run` has finished when `t.Run` returns.
-/

namespace Testman

/-! ## Strings and the host test handle -/

/-- A Go `string`: a sequence of bytes. -/
abbrev GoString := List UInt8

/-- The bytes of an ASCII literal. -/
def str (s : String) : GoString := s.toList.map (fun c => c.toNat.toUInt8)

/-- How a call stops when it does not return normally. -/
inductive Abort where
  | goexit
  | panic
  deriving DecidableEq, Repr

/-- The host runtime's `*testing.T`, reduced to the name it reports. -/
structure TestingT where
  Name : GoString
  deriving DecidableEq, Repr

/-- Go `testing.T.Run` names the child `parent/name`. The rewriting the host
applies to a sub-test name (a space becomes an underscore, an empty or a
repeated name gets a numbered suffix) is not modelled: the names used below
are plain and distinct. -/
def TestingT.sub (t : TestingT) (name : GoString) : TestingT :=
  ⟨t.Name ++ str "/" ++ name⟩

/-- Go `const wrapperTestName = "!"` (testman.go:12). -/
def wrapperTestName : GoString := str "!"

/-- Go `strings.Index(s, substr)`: the index of the first instance of `substr`
in `s`, or -1 if `substr` is not present in `s`. -/
def stringsIndex : GoString → GoString → Int
  | [], substr => if substr.isEmpty then 0 else -1
  | c :: s, substr =>
    if substr.isPrefixOf (c :: s) then 0
    else
      let r := stringsIndex s substr
      if r < 0 then -1 else r + 1

/-- The slice expression `s[k:]`: it panics unless `0 ≤ k ≤ len(s)`. -/
def sliceFrom (s : GoString) (k : Int) : Except Abort GoString :=
  if 0 ≤ k ∧ k ≤ (s.length : Int) then .ok (s.drop k.toNat) else .error .panic

/-! ## The test context `T` (t.go) -/

/-- Modelled from the spec: `plugin.Override`, an entry of the
Intercepted-Operation Table (package plugin is not among the sources). `Call`
turns the base implementation into the function that is run; an entry with no
registered interceptor degrades to calling the base directly. -/
structure Override (F : Type) where
  Call : F → F

/-- Modelled from the spec: `plugin.Overrides`, the Intercepted-Operation
Table. Only the `Name` entry is carried; the other entries are used by t.go in
the same way. -/
structure Overrides where
  Name : Override (Unit → Except Abort GoString)

/-- The zero value of `plugin.Overrides`: no interceptor registered. -/
def Overrides.zero : Overrides := ⟨⟨fun base => base⟩⟩

/-- Go `type T struct { *testing.T; overrides plugin.Overrides }` (t.go:13). -/
structure T where
  /-- The embedded `*testing.T`. -/
  testingT : TestingT
  overrides : Overrides

/-- Modelled from the spec: `plugin.Option`; option values are passed through
and never inspected. -/
structure PluginOption where
  id : Nat
  deriving DecidableEq, Repr

/-- Go `func (*T) New(t *T, _ ...plugin.Option) *T { return t }` (t.go:22). -/
def T.New (t : T) (_options : List PluginOption) : T := t

/-- Go `func (t *T) name() string` (t.go:30). -/
def T.name (t : T) : Except Abort GoString :=
  let name := t.testingT.Name
  let idx := stringsIndex name wrapperTestName
  if idx ≥ 0 then
    -- +1 for slash
    sliceFrom name (idx + (wrapperTestName.length : Int) + 1)
  else
    .ok name

/-- Go `func (t *T) Name() string` (t.go:24):
`t.overrides.Name.Call(t.name)()`. -/
def T.Name (t : T) : Except Abort GoString :=
  t.overrides.Name.Call (fun _ => t.name) ()

/-! ## Fixture construction (testman.go:102-179)

`reflect.Value` is modelled by the observations the code makes of it: whether
it is valid, its type, its method `New`, whether it can be set, and what
`reflectutil.Elem` gives for it (its kind and, for a struct, its fields).
Package `reflectutil` is not among the sources: the result of
`reflectutil.Elem` on a value is part of that value's description. -/

/-- A `reflect.Type`, written as the type's name and compared by identity. -/
abbrev RType := String

/-- Go `reflect.TypeOf(t)` for `t *T`. -/
def typeOfT : RType := "*testman.T"

/-- Go `reflect.TypeOf(options)` for `options []plugin.Option`. -/
def typeOfOptions : RType := "[]plugin.Option"

/-- The `reflect.Type` of a method value: `In(i)`, `Out(i)`, `IsVariadic()`;
`NumIn()` and `NumOut()` are the lengths. -/
structure FuncType where
  In : List RType
  Out : List RType
  IsVariadic : Bool
  deriving DecidableEq, Repr

mutual
/-- A `reflect.Value` as the construction code sees it. -/
inductive Value where
  /-- The zero `reflect.Value` (`reflect.ValueOf(nil)`): `IsValid()` is false. -/
  | invalid : Value
  /-- A valid value: its `Type()`, the type of its method `New` when
  `MethodByName("New")` is valid, what calling that method (bound to this
  value) returns, `CanSet()`, and `reflectutil.Elem` of it. -/
  | mk (typ : RType) (newType : Option FuncType)
      (newCall : T → List PluginOption → Value) (canSet : Bool) (elem : Elem) : Value
/-- The value `reflectutil.Elem(v)`. -/
inductive Elem where
  /-- Not valid (for instance behind a nil pointer). -/
  | invalid : Elem
  /-- Valid, of a kind other than `reflect.Struct`. -/
  | other : Elem
  /-- Of kind `reflect.Struct`, with its fields in order. -/
  | struct (fields : List Value) : Elem
end

/-- The method value `MethodByName("New")` when it is valid. -/
structure Method where
  typ : FuncType
  call : T → List PluginOption → Value

/-- Go `v.IsValid()`. -/
def Value.IsValid : Value → Bool
  | .invalid => false
  | .mk .. => true

/-- Go `v.CanSet()`; false for the zero Value. -/
def Value.CanSet : Value → Bool
  | .invalid => false
  | .mk _ _ _ canSet _ => canSet

/-- Go `v.Type()`; panics on the zero Value. -/
def Value.Type : Value → Except Abort RType
  | .invalid => .error .panic
  | .mk typ _ _ _ _ => .ok typ

/-- Go `v.MethodByName("New")`; panics on the zero Value, and gives `none` when
the method value is not valid. -/
def Value.MethodByNameNew : Value → Except Abort (Option Method)
  | .invalid => .error .panic
  | .mk _ newType newCall _ _ => .ok (newType.map fun ft => ⟨ft, newCall⟩)

/-- Go `reflectutil.Elem(v)`; the zero Value stays the zero Value. -/
def Value.Elem : Value → Elem
  | .invalid => .invalid
  | .mk _ _ _ _ elem => elem

/-- Go `e.IsValid()` for `e = reflectutil.Elem(v)`. -/
def Elem.IsValid : Elem → Bool
  | .invalid => false
  | _ => true

/-- Go `e.Field(i)`: panics unless `e` is a struct with more than `i` fields. -/
def Elem.Field : Elem → Nat → Except Abort Value
  | .struct fields, i =>
    match fields[i]? with
    | some f => .ok f
    | none => .error .panic
  | _, _ => .error .panic

/-- Go `methodNew.CallSlice([]reflect.Value{reflect.ValueOf(t),
reflect.ValueOf(options)})[0]`. As package reflect documents, `CallSlice`
panics if the function is not variadic, if the number of arguments differs
from `NumIn()`, or if an argument is not assignable to its parameter type (the
variadic parameter has a slice type, to which `[]plugin.Option` is assignable
only when it is that very type); indexing `[0]` panics when there is no
result. -/
def Method.CallSlice (m : Method) (t : T) (options : List PluginOption) :
    Except Abort Value :=
  if m.typ.IsVariadic ∧ m.typ.In = [typeOfT, typeOfOptions] ∧ m.typ.Out ≠ [] then
    .ok (m.call t options)
  else
    .error .panic

/-- What construction does, in order. -/
inductive CEvent where
  /-- Entry of `initValue` for `value` with the template `parent`. -/
  | visit (value parent : Value)
  /-- The call `t.Fatalf("wrong signature for %[1]s.New, ...", value.Type().String(), ...)`. -/
  | fatalf (typ : RType)
  /-- The constructor `New` was called with these arguments. -/
  | callNew (t : T) (options : List PluginOption)

/-- The outcome of `initValue`: what happened, how it stopped if it did not
return, and the value afterwards. -/
structure InitResult where
  events : List CEvent
  abort : Option Abort
  value : Value

/-- The outcome of the loop over the fields (testman.go:168-178). -/
structure FieldsResult where
  events : List CEvent
  abort : Option Abort
  fields : List Value

/-- Lines 129-133: `New` is looked up on the parent when the parent is valid,
on the value otherwise. -/
def lookupNew (value parent : Value) : Except Abort (Option Method) :=
  if parent.IsValid then parent.MethodByNameNew else value.MethodByNameNew

/-- Lines 136-158, the branch taken when `methodNew.IsValid()`. `t` is the
`&concreteT{...}` made by the caller of `construct`: it has no interceptor, so
`t.Fatalf` is the host runtime's and stops the goroutine. `value.Set(res)`
panics when `value.CanSet()` is false. -/
def initWithNew (t : T) (options : List PluginOption) (value parent : Value)
    (methodNew : Method) : InitResult :=
  match value.Type with
  | .error a => ⟨[.visit value parent], some a, value⟩
  | .ok vtyp =>
    let mType := methodNew.typ
    let isValidOut := mType.Out.length == 1 && mType.Out[0]? == some vtyp
    let isValidIn := mType.In.length == 2 && mType.In[0]? == some typeOfT
    if !isValidIn || !isValidOut then
      ⟨[.visit value parent, .fatalf vtyp], some .goexit, value⟩
    else
      match methodNew.CallSlice t options with
      | .error a => ⟨[.visit value parent], some a, value⟩
      | .ok res =>
        if value.CanSet then
          ⟨[.visit value parent, .callNew t options], none, res⟩
        else
          ⟨[.visit value parent, .callNew t options], some .panic, value⟩

mutual
/-- Go `func initValue(t *T, value, parent reflect.Value, options ...plugin.Option)`
(testman.go:126). -/
def initValue (t : T) (options : List PluginOption) (value parent : Value) : InitResult :=
  match lookupNew value parent with
  | .error a => ⟨[.visit value parent], some a, value⟩
  | .ok (some methodNew) => initWithNew t options value parent methodNew
  | .ok none =>
    -- value = reflectutil.Elem(value); parent = reflectutil.Elem(parent)
    match value with
    | .mk typ newType newCall canSet (.struct fields) =>
      let r := initFields t options parent.Elem fields 0
      ⟨.visit value parent :: r.events, r.abort,
        .mk typ newType newCall canSet (.struct r.fields)⟩
    | _ => ⟨[.visit value parent], none, value⟩
/-- The loop `for i := range value.NumField()` (testman.go:168-178), from
field `i` on; `parent` is `reflectutil.Elem` of the parent. -/
def initFields (t : T) (options : List PluginOption) (parent : Elem) :
    List Value → Nat → FieldsResult
  | [], _ => ⟨[], none, []⟩
  | field :: rest, i =>
    if field.CanSet then
      match (if parent.IsValid then parent.Field i else .ok .invalid) with
      | .error a => ⟨[], some a, field :: rest⟩
      | .ok template =>
        let r := initValue t options field template
        match r.abort with
        | some a => ⟨r.events, some a, r.value :: rest⟩
        | none =>
          let rs := initFields t options parent rest (i + 1)
          ⟨r.events ++ rs.events, rs.abort, r.value :: rs.fields⟩
    else
      let rs := initFields t options parent rest (i + 1)
      ⟨rs.events, rs.abort, field :: rs.fields⟩
end

/-- Reflection facts about the type parameter `V` of `construct`. -/
structure Shape where
  /-- The value `reflect.ValueOf(&v)` for the fresh `v` (lines 103-118): a nil pointer
  `V` has been replaced by a pointer to a new element. -/
  fresh : Value
  /-- The value `reflect.ValueOf(parent)` for a nil `parent *V` (line 109): a typed nil
  pointer, which is a valid `reflect.Value`. -/
  nilParent : Value

/-- Go `func construct[V any](t *T, parent *V, options ...plugin.Option) V`
(testman.go:102); `parent` is `reflect.ValueOf(*parent)` when the pointer is
not nil. The returned `v` is the value behind the result. -/
def construct (t : T) (shape : Shape) (parent : Option Value)
    (options : List PluginOption) : InitResult :=
  let parentValue :=
    match parent with
    | none => shape.nilParent
    | some p => p
  initValue t options shape.fresh parentValue

/-! ## The suite runner (testman.go:21-100 and 181-220)

The runner is generic in the suite type `S` and in the context type `C` (the
type parameter `T commonT`). Neither `commonT` nor package `plugin` is among
the sources: what the runner uses of them is gathered in `Env`. -/

/-- The lifecycle hook names (testman.go:14-19). -/
inductive Hook where
  | BeforeAll
  | BeforeEach
  | AfterAll
  | AfterEach
  deriving DecidableEq, Repr

/-- Modelled from the spec: the Merged Plugin Set returned by `plugin.Merge`,
one Intercepted-Operation Table and one Hook Set. -/
structure Plugin (Hk : Type) where
  Overrides : Overrides
  Hooks : Hk

/-- What the runner uses of the context type `C`, of package `plugin` (plugins
`P`, hook sets `Hk`) and of `construct` at type `C`. -/
structure Env (C P Hk : Type) where
  /-- The call `construct[C](t, parent, options...)` (testman.go:102): the context it
  returns, or how it stopped. -/
  construct : T → Option C → List PluginOption → Except Abort C
  /-- The field `c.unwrap().overrides`. -/
  overrides : C → Overrides
  /-- The assignment `c.unwrap().overrides = o`: the context afterwards. -/
  setOverrides : C → Overrides → C
  /-- The `*testing.T` embedded in the context. -/
  testingT : C → TestingT
  /-- How `c.Fatalf(...)` ends: `none` when an interceptor lets it return. -/
  Fatalf : C → Option Abort
  /-- The call `plugin.Collect(c)`. -/
  Collect : C → List P
  /-- The call `plugin.Merge(plugins...)`. -/
  Merge : List P → Plugin Hk
  /-- How invoking one lifecycle entry of a Hook Set ends, for instance
  `plug.Hooks.BeforeAll()`. -/
  runHooks : Hk → Hook → Option Abort

/-- What `MethodByName(name)` finds on the suite value for a hook name. -/
inductive HookDecl (S C : Type) where
  /-- No method: `method.IsValid()` is false. -/
  | absent
  /-- A method that is not a `func(T)`. -/
  | wrongSig
  /-- A `func(T)` bound to the suite: from the suite value and the context to
  how the call ends and the suite value afterwards. -/
  | valid (f : S → C → Option Abort × S)

/-- A method of the suite type, `vt.Method(i)`. -/
structure SuiteMethod (S C : Type) where
  Name : GoString
  IsExported : Bool
  /-- The function when `method.Func.Interface()` is a `func(Suite, T)`; it
  gives how the test body ends. -/
  F : Option (S → C → Option Abort)

/-- Reflection facts about the type parameter `Suite`. -/
structure SuiteType (S C : Type) where
  /-- The zero value, `var suite Suite`. -/
  zero : S
  /-- The methods `vt.Method(i)` for `i` in `range vt.NumMethod()`. -/
  methods : List (SuiteMethod S C)
  /-- The method `Clone` when `any(suite).(Cloner[Suite])` succeeds. -/
  Clone : Option (S → S)
  /-- The lookup `reflectutil.Elem(reflect.ValueOf(&suite)).MethodByName(name)`. -/
  MethodByName : Hook → HookDecl S C

/-- Go `type suiteTest[Suite any, T any] struct` (testman.go:181). -/
structure suiteTest (S C : Type) where
  Name : GoString
  F : S → C → Option Abort

/-- What the runner does, in order. -/
inductive Event (S C Hk : Type) where
  /-- The call `t.Log(msg)` on the host handle. -/
  | log (t : TestingT) (msg : GoString)
  /-- The `t.Fatalf` of `collectSuiteTests` for the named method. -/
  | hostFatalf (t : TestingT) (method : GoString)
  /-- The `t.Fatalf` of `callSuiteHook` for the named hook. -/
  | fatalf (t : C) (hook : Hook)
  /-- The sub-test with this handle starts. -/
  | enter (t : TestingT)
  /-- The sub-test with this handle has finished. -/
  | leave (t : TestingT)
  /-- One lifecycle entry of a merged Hook Set is invoked. -/
  | hooks (hook : Hook) (set : Hk)
  /-- The suite's own hook method is called; `suite` is the value of the
  variable whose address it is given. -/
  | suiteHook (hook : Hook) (suite : S) (t : C)
  /-- A test body is called, `handle.F(suite, t)`. -/
  | test (name : GoString) (suite : S) (t : C)
  /-- The body given to `Run` is called, `f(t)`. -/
  | body (t : C)

/-- The lifecycle hook an event is an invocation of. -/
def Event.hook? {S C Hk : Type} : Event S C Hk → Option Hook
  | .hooks h _ => some h
  | .suiteHook h _ _ => some h
  | _ => none

/-- Whether an event invokes the given entry of a merged Hook Set. -/
def Event.isHooks {S C Hk : Type} (h : Hook) : Event S C Hk → Bool
  | .hooks h1 _ => h1 = h
  | _ => false

/-- What a piece of the runner did and how it stopped if it did not return. -/
structure Trace (S C Hk : Type) where
  events : List (Event S C Hk)
  abort : Option Abort

/-- How a function ends when its body ended with `a` and a deferred call that
ran afterwards ended with `b`: when the deferred call does not return, its way
of stopping is the one that stands (a `runtime.Goexit` in a deferred call
cancels a panic under way, a panic in a deferred call replaces a
`runtime.Goexit`); when it returns, the function ends as its body did. -/
def joinAbort : Option Abort → Option Abort → Option Abort
  | a, none => a
  | _, some b => some b

/-- The loop of `collectSuiteTests` (testman.go:191-217); `.error name` when
`t.Fatalf` stops it at the method `name`. -/
def collectLoop {S C : Type} :
    List (SuiteMethod S C) → List (suiteTest S C) → Except GoString (List (suiteTest S C))
  | [], tests => .ok tests
  | method :: rest, tests =>
    if !method.IsExported then collectLoop rest tests
    else if !(str "Test").isPrefixOf method.Name then collectLoop rest tests
    else
      match method.F with
      | some f => collectLoop rest (tests ++ [⟨method.Name, f⟩])
      | none => .error method.Name

/-- Go `func collectSuiteTests[Suite any, T fataller](t *testing.T)`
(testman.go:186). -/
def collectSuiteTests {S C : Type} (st : SuiteType S C) (_t : TestingT) :
    Except GoString (List (suiteTest S C)) :=
  collectLoop st.methods []

/-- The outcome of `callSuiteHook`: the trace and the suite value afterwards. -/
structure HookRun (S C Hk : Type) where
  events : List (Event S C Hk)
  abort : Option Abort
  suite : S

/-- Go `func callSuiteHook[T fataller](t T, suite any, name string)`
(testman.go:84); `suite` is the value behind the pointer. When `t.Fatalf`
returns, `f` is nil and calling it panics. -/
def callSuiteHook {S C P Hk : Type} (env : Env C P Hk) (st : SuiteType S C)
    (t : C) (suite : S) (name : Hook) : HookRun S C Hk :=
  match st.MethodByName name with
  | .absent => ⟨[], none, suite⟩
  | .wrongSig =>
    match env.Fatalf t with
    | some a => ⟨[.fatalf t name], some a, suite⟩
    | none => ⟨[.fatalf t name], some .panic, suite⟩
  | .valid f => ⟨[.suiteHook name suite t], (f suite t).1, (f suite t).2⟩

/-- Go `t.Run(name, f)` of the host runtime in the sequential model: the child
runs `f` to its end. `runtime.Goexit` ends the child only; a panic ends the
test binary. The reported pass/fail result is not modelled. -/
def tRun {S C Hk : Type} (t : TestingT) (name : GoString)
    (f : TestingT → Trace S C Hk) : Trace S C Hk :=
  let child := t.sub name
  let r := f child
  match r.abort with
  | some .panic => ⟨.enter child :: r.events, some .panic⟩
  | _ => ⟨.enter child :: r.events ++ [.leave child], none⟩

/-- The function given to `t.Run(handle.Name, ...)` (testman.go:50-63). The
two deferred calls run when the function ends, last registered first, however
it ends. -/
def suiteSubTest {S C P Hk : Type} (env : Env C P Hk) (st : SuiteType S C)
    (tt : C) (suite suiteClone : S) (handle : suiteTest S C) (t : TestingT) :
    Trace S C Hk :=
  match env.construct ⟨t, Overrides.zero⟩ (some tt) [] with
  | .error a => ⟨[], some a⟩
  | .ok subT0 =>
    let subPlug := env.Merge (env.Collect subT0)
    let subT := env.setOverrides subT0 subPlug.Overrides
    match env.runHooks subPlug.Hooks .BeforeEach with
    | some a => ⟨[.hooks .BeforeEach subPlug.Hooks], some a⟩
    | none =>
      -- defer subPlug.Hooks.AfterEach()
      let be := callSuiteHook env st subT suiteClone .BeforeEach
      match be.abort with
      | some a =>
        ⟨.hooks .BeforeEach subPlug.Hooks :: be.events ++ [.hooks .AfterEach subPlug.Hooks],
          joinAbort (some a) (env.runHooks subPlug.Hooks .AfterEach)⟩
      | none =>
        -- defer callSuiteHook(subT, &suiteClone, hookAfterEach)
        let body := handle.F suite subT
        let ae := callSuiteHook env st subT be.suite .AfterEach
        ⟨.hooks .BeforeEach subPlug.Hooks :: be.events ++ [.test handle.Name suite subT]
            ++ ae.events ++ [.hooks .AfterEach subPlug.Hooks],
          joinAbort body (joinAbort ae.abort (env.runHooks subPlug.Hooks .AfterEach))⟩

/-- The loop `for _, handle := range tests` inside the wrapper sub-test
(testman.go:41-64); `t` is the wrapper's handle. -/
def suiteLoop {S C P Hk : Type} (env : Env C P Hk) (st : SuiteType S C)
    (tt : C) (suite : S) (t : TestingT) : List (suiteTest S C) → Trace S C Hk
  | [] => ⟨[], none⟩
  | handle :: rest =>
    let suiteClone :=
      match st.Clone with
      | some clone => clone suite
      | none => suite
    let r := tRun t handle.Name (suiteSubTest env st tt suite suiteClone handle)
    match r.abort with
    | some a => ⟨r.events, some a⟩
    | none =>
      let rs := suiteLoop env st tt suite t rest
      ⟨r.events ++ rs.events, rs.abort⟩

/-- Go `func Suite[Suite any, T commonT](t *testing.T, options ...plugin.Option)`
(testman.go:21). -/
def Suite {S C P Hk : Type} (env : Env C P Hk) (st : SuiteType S C)
    (t : TestingT) (options : List PluginOption) : Trace S C Hk :=
  match collectSuiteTests st t with
  | .error name => ⟨[.hostFatalf t name], some .goexit⟩
  | .ok tests =>
    -- nothing to do
    if tests.length = 0 then
      ⟨[.log t (str "warn: no tests to run")], none⟩
    else
      match env.construct ⟨t, Overrides.zero⟩ none options with
      | .error a => ⟨[], some a⟩
      | .ok tt =>
        let plug := env.Merge (env.Collect tt)
        let suite := st.zero
        match env.runHooks plug.Hooks .BeforeAll with
        | some a => ⟨[.hooks .BeforeAll plug.Hooks], some a⟩
        | none =>
          let ba := callSuiteHook env st tt suite .BeforeAll
          match ba.abort with
          | some a => ⟨.hooks .BeforeAll plug.Hooks :: ba.events, some a⟩
          | none =>
            let w := tRun t wrapperTestName (fun t => suiteLoop env st tt ba.suite t tests)
            match w.abort with
            | some a => ⟨.hooks .BeforeAll plug.Hooks :: ba.events ++ w.events, some a⟩
            | none =>
              match env.runHooks plug.Hooks .AfterAll with
              | some a =>
                ⟨.hooks .BeforeAll plug.Hooks :: ba.events ++ w.events
                  ++ [.hooks .AfterAll plug.Hooks], some a⟩
              | none =>
                let aa := callSuiteHook env st tt ba.suite .AfterAll
                ⟨.hooks .BeforeAll plug.Hooks :: ba.events ++ w.events
                  ++ [.hooks .AfterAll plug.Hooks] ++ aa.events, aa.abort⟩

/-- Go `func Run[T commonT](t T, name string, f func(t T)) bool`
(testman.go:71); `f` gives how the body ends. -/
def Run {S C P Hk : Type} (env : Env C P Hk) (t : C) (name : GoString)
    (f : C → Option Abort) : Trace S C Hk :=
  tRun (env.testingT t) name fun tt =>
    match env.construct ⟨tt, Overrides.zero⟩ (some t) [] with
    | .error a => ⟨[], some a⟩
    | .ok subT =>
      let plug := env.Merge (env.Collect subT)
      match env.runHooks plug.Hooks .BeforeEach with
      | some a => ⟨[.hooks .BeforeEach plug.Hooks], some a⟩
      | none =>
        -- defer plug.Hooks.AfterEach()
        let body := f subT
        ⟨[.hooks .BeforeEach plug.Hooks, .body subT, .hooks .AfterEach plug.Hooks],
          joinAbort body (env.runHooks plug.Hooks .AfterEach)⟩

/-! ## Vocabulary of the statements -/

/-- The template `initValue` hands to the member at position `i` (lines
172-176), `parent` being `reflectutil.Elem` of the parent. -/
def templateAt (parent : Elem) (i : Nat) : Except Abort Value :=
  if parent.IsValid then parent.Field i else .ok .invalid

/-- Whether a construction event is the fatal signature report. -/
def CEvent.isFatalf : CEvent → Bool
  | .fatalf _ => true
  | _ => false

/-- Whether a construction event is a call of `New`. -/
def CEvent.isCallNew : CEvent → Bool
  | .callNew _ _ => true
  | _ => false

/-- The call of the suite method named `h` on the suite value `s` with the
context `c`, when the suite declares that hook; nothing otherwise. -/
def ownCall {S C Hk : Type} (st : SuiteType S C) (h : Hook) (s : S) (c : C) :
    List (Event S C Hk) :=
  match st.MethodByName h with
  | .valid _ => [.suiteHook h s c]
  | _ => []

/-- The suite argument of a test body call. -/
def Event.testSuite? {S C Hk : Type} : Event S C Hk → Option S
  | .test _ s _ => some s
  | _ => none

/-- The suite value handed to the suite method named `h`. -/
def Event.hookSuite? {S C Hk : Type} (h : Hook) : Event S C Hk → Option S
  | .suiteHook h1 s _ => if h1 = h then some s else none
  | _ => none

/-- The context handed to the suite method named `h`. -/
def Event.hookContext? {S C Hk : Type} (h : Hook) : Event S C Hk → Option C
  | .suiteHook h1 _ c => if h1 = h then some c else none
  | _ => none

/-- The context handed to the body of `Run`. -/
def Event.bodyContext? {S C Hk : Type} : Event S C Hk → Option C
  | .body c => some c
  | _ => none

/-- The sequential model in which no hook and no test aborts: `construct`
returns a context, every Hook Set entry returns, every suite hook is either
not declared or a `func(T)` that returns, and every test body returns. -/
structure Quiet {S C P Hk : Type} (env : Env C P Hk) (st : SuiteType S C)
    (tests : List (suiteTest S C)) : Prop where
  construct : ∀ t parent options, ∃ c, env.construct t parent options = .ok c
  hooks : ∀ set h, env.runHooks set h = none
  own : ∀ h, st.MethodByName h = .absent ∨
    ∃ f, st.MethodByName h = .valid f ∧ ∀ s c, (f s c).1 = none
  bodies : ∀ handle ∈ tests, ∀ s c, handle.F s c = none

/-! ## Concrete inputs -/

/-- A plugin whose `Name` interceptor answers `intercepted` without calling
the base; its Hook Set is number 1. -/
def demoPlugin : Plugin Nat :=
  ⟨⟨⟨fun _ _ => .ok (str "intercepted")⟩⟩, 1⟩

/-- An environment whose contexts are `T` values: `construct` succeeds and
yields the fresh `&concreteT{...}` it was given, as `(*T).New` does; one
plugin, `demoPlugin`, is collected, and `Merge` of that one plugin is the
plugin itself; `Fatalf` is the host runtime's; every Hook Set entry returns. -/
def demoEnv : Env T (Plugin Nat) Nat where
  construct := fun t _ options => .ok (T.New t options)
  overrides := fun c => c.overrides
  setOverrides := fun c o => { c with overrides := o }
  testingT := fun c => c.testingT
  Fatalf := fun _ => some .goexit
  Collect := fun _ => [demoPlugin]
  Merge := fun plugins => plugins.headD ⟨Overrides.zero, 0⟩
  runHooks := fun _ _ => none

/-- A suite `type S struct{ n int }` with one test `TestA`, the four hooks,
and `func (s S) Clone() S` returning the copy with `n+1`. -/
def demoSuite : SuiteType Nat T where
  zero := 0
  methods := [⟨str "TestA", true, some (fun _ _ => none)⟩]
  Clone := some (fun s => s + 1)
  MethodByName := fun _ => .valid (fun s _ => (none, s))

/-- The test record discovered on `demoSuite`. -/
def demoTest : suiteTest Nat T := ⟨str "TestA", fun _ _ => none⟩

/-- A test whose body panics. -/
def panickingTest : suiteTest Nat T := ⟨str "TestA", fun _ _ => some .panic⟩

/-- The host handle of a top-level test `TestSuite`. -/
def demoT : TestingT := ⟨str "TestSuite"⟩

/-- A context on `demoT` with no interceptor. -/
def demoContext : T := ⟨demoT, Overrides.zero⟩

/-- What the constructor of `DB` returns. -/
def builtDB : Value := .mk "DB" none (fun _ _ => .invalid) false .other

/-- A settable member of type `DB` with
`func (DB) New(t *testman.T, options ...plugin.Option) DB`. -/
def memberWithNew : Value :=
  .mk "DB" (some ⟨[typeOfT, typeOfOptions], ["DB"], true⟩) (fun _ _ => builtDB) true .other

/-- The method `New` of `memberWithNew`. -/
def memberNew : Method := ⟨⟨[typeOfT, typeOfOptions], ["DB"], true⟩, fun _ _ => builtDB⟩

/-- A settable member of type `Cache` with
`func (Cache) New(t *testman.T, size int) Cache`: the second parameter is not
the variadic options list. -/
def memberWithIntNew : Value :=
  .mk "Cache" (some ⟨[typeOfT, "int"], ["Cache"], false⟩) (fun _ _ => builtDB) true .other

/-- A settable member of type `Cache` with
`func (Cache) New(t *testman.T, sizes ...int) Cache`: variadic, but not of
options. -/
def memberWithIntsNew : Value :=
  .mk "Cache" (some ⟨[typeOfT, "[]int"], ["Cache"], true⟩) (fun _ _ => builtDB) true .other

/-- What `func (Ctx) New(t *testman.T, options ...plugin.Option) *Ctx` returns:
a pointer to a `Ctx` whose member `DB` is built. -/
def builtCtx : Value :=
  .mk "*Ctx" none (fun _ _ => .invalid) false (.struct [builtDB])

/-- The method `New` of the type `Ctx`, with exactly the shape lines 141-142
ask of the node `reflect.ValueOf(&v)` for `v` of type `Ctx`: it takes the
context and the variadic options and returns the type of that node, `*Ctx`. -/
def ctxNew : Method := ⟨⟨[typeOfT, typeOfOptions], ["*Ctx"], true⟩, fun _ _ => builtCtx⟩

/-- The value `reflect.ValueOf(*parent)` for a parent of type
`type Ctx struct { DB DB }`: as a result of `reflect.ValueOf` it cannot be
set, and its method `New` is `ctxNew`. -/
def parentCtx : Value :=
  .mk "Ctx" (some ctxNew.typ) ctxNew.call false (.struct [builtDB])

/-- The type parameter `V = Ctx` of `construct`: `reflect.ValueOf(&v)` has the
type `*Ctx` and, as a result of `reflect.ValueOf`, cannot be set;
`reflectutil.Elem` of it is the struct with the member `DB` at its zero
value. -/
def ctxShape : Shape where
  fresh := .mk "*Ctx" (some ctxNew.typ) ctxNew.call false (.struct [memberWithNew])
  nilParent := .mk "*Ctx" (some ctxNew.typ) ctxNew.call false .invalid

/-- A settable member of type `int`. -/
def plainMember : Value := .mk "int" none (fun _ _ => .invalid) true .other

/-- An unexported member of type `int`: it cannot be set. -/
def readOnlyMember : Value := .mk "int" none (fun _ _ => .invalid) false .other

/-- A settable struct `Fixture` with the members `plainMember`,
`readOnlyMember`, `memberWithNew`, in this order. -/
def demoFixture : Value :=
  .mk "Fixture" none (fun _ _ => .invalid) true
    (.struct [plainMember, readOnlyMember, memberWithNew])

/-! ## Names (t.go:24-41) -/

theorem wrapperTestName_eq : wrapperTestName = [33] := by decide

theorem stringsIndex_byte_cons (b c : UInt8) (s : GoString) :
    stringsIndex (c :: s) [b] =
      if b = c then 0 else if stringsIndex s [b] < 0 then -1 else stringsIndex s [b] + 1 := by
  simp [stringsIndex, List.isPrefixOf]

theorem stringsIndex_byte_absent (b : UInt8) (s : GoString) (h : b ∉ s) :
    stringsIndex s [b] = -1 := by
  induction s with
  | nil => simp [stringsIndex]
  | cons c s ih =>
    have hc : b ≠ c := fun e => h (by simp [e])
    have hs : b ∉ s := fun e => h (by simp [e])
    rw [stringsIndex_byte_cons, if_neg hc, ih hs]
    simp

theorem stringsIndex_byte_first (b : UInt8) (p r : GoString) (h : b ∉ p) :
    stringsIndex (p ++ b :: r) [b] = (p.length : Int) := by
  induction p with
  | nil => simp [stringsIndex_byte_cons]
  | cons c p ih =>
    have hc : b ≠ c := fun e => h (by simp [e])
    have hp : b ∉ p := fun e => h (by simp [e])
    rw [List.cons_append, stringsIndex_byte_cons, if_neg hc, ih hp]
    have : ¬ ((p.length : Int) < 0) := by omega
    simp [this]

theorem marker_free_of_no_occurrence (b : UInt8) (p : GoString) (h : ¬ List.IsInfix [b] p) :
    b ∉ p := by
  intro hm
  obtain ⟨s, t, rfl⟩ := List.append_of_mem hm
  exact h ⟨s, t, by simp⟩

theorem name_of_absent (t : T) (h : (33 : UInt8) ∉ t.testingT.Name) :
    t.name = .ok t.testingT.Name := by
  simp [T.name, wrapperTestName_eq, stringsIndex_byte_absent _ _ h]

theorem name_of_wrapped (t : T) (p r : GoString) (hp : (33 : UInt8) ∉ p)
    (hn : t.testingT.Name = p ++ str "/!/" ++ r) : t.name = .ok r := by
  have e : str "/!/" = [47, 33, 47] := by decide
  have hn2 : t.testingT.Name = (p ++ [47]) ++ 33 :: (47 :: r) := by simp [hn, e]
  have hp2 : (33 : UInt8) ∉ p ++ [47] := by
    simp only [List.mem_append, List.mem_singleton, not_or]
    exact ⟨hp, by decide⟩
  have hi := stringsIndex_byte_first 33 (p ++ [47]) (47 :: r) hp2
  simp only [T.name, wrapperTestName_eq, hn2, hi]
  have h1 : (0 : Int) ≤ (p.length : Int) + 1 := by omega
  have h2 : (0 : Int) ≤ (p.length : Int) + 1 + 1 + 1 ∧
      (p.length : Int) + 1 + 1 + 1 ≤ (p.length : Int) + ((r.length : Int) + 1 + 1 + 1) := by
    omega
  have h3 : ((p.length : Int) + 1 + 1 + 1).toNat = p.length + 3 := by omega
  have h4 : List.drop (p.length + 3) (p ++ 47 :: 33 :: 47 :: r) = r := by
    rw [List.drop_append]
    simp
  simp [sliceFrom, h1, h2, h3, h4]

/-- When the first marker byte is the last byte of the name, the slice start
is past the end of the name and `name()` panics. -/
theorem name_panics_on_trailing_marker (t : T) (p : GoString) (hp : (33 : UInt8) ∉ p)
    (hn : t.testingT.Name = p ++ str "!") : t.name = .error .panic := by
  have e : str "!" = [33] := by decide
  have hi := stringsIndex_byte_first 33 p [] hp
  simp only [T.name, wrapperTestName_eq, hn, e, hi]
  have h1 : (0 : Int) ≤ (p.length : Int) := by omega
  have h2 : ¬ ((0 : Int) ≤ (p.length : Int) + 1 + 1 ∧
      (p.length : Int) + 1 + 1 ≤ (p.length : Int) + 1) := by omega
  simp [sliceFrom, h1, h2]

/-- C9: with no Name interceptor installed (the Name entry of the table calls
its base), a host name `p ++ "/!/" ++ r` whose `p` does not contain the wrapper
marker is exposed by `Name()` as `r`, and a host name that does not contain the
marker is exposed unchanged. -/
theorem Name_strips_wrapper_segment (t : T)
    (hbase : ∀ base, t.overrides.Name.Call base = base) :
    (∀ p r : GoString, ¬ List.IsInfix wrapperTestName p →
      t.testingT.Name = p ++ str "/!/" ++ r → t.Name = .ok r) ∧
    (¬ List.IsInfix wrapperTestName t.testingT.Name → t.Name = .ok t.testingT.Name) := by
  constructor
  · intro p r hp hn
    rw [wrapperTestName_eq] at hp
    simp only [T.Name, hbase]
    exact name_of_wrapped t p r (marker_free_of_no_occurrence _ _ hp) hn
  · intro hp
    rw [wrapperTestName_eq] at hp
    simp only [T.Name, hbase]
    exact name_of_absent t (marker_free_of_no_occurrence _ _ hp)

/-- Witness of C9: the host name `TestSuite/!/CaseA` is exposed as `CaseA`. -/
theorem Name_strips_wrapper_segment_witness :
    (∀ base, (T.mk ⟨str "TestSuite/!/CaseA"⟩ Overrides.zero).overrides.Name.Call base = base) ∧
    ¬ List.IsInfix wrapperTestName (str "TestSuite") ∧
    (T.mk ⟨str "TestSuite/!/CaseA"⟩ Overrides.zero).Name = .ok (str "CaseA") :=
  ⟨fun _ => rfl, by decide,
    (Name_strips_wrapper_segment (T.mk ⟨str "TestSuite/!/CaseA"⟩ Overrides.zero)
      (fun _ => rfl)).1 (str "TestSuite") (str "CaseA") (by decide) (by decide)⟩

/-- C10: `name()` is not total. For the host name `TestSuite/done!`, as
reported for a sub-test started with the name `done!`, the first marker is the
last byte, the slice start `idx+len(wrapperTestName)+1` is one past the length
of the name, and both `name()` and `Name()` panic. -/
theorem name_panics_on_subtest_named_with_marker :
    stringsIndex (str "TestSuite/done!") wrapperTestName + (wrapperTestName.length : Int) + 1
      = ((str "TestSuite/done!").length : Int) + 1 ∧
    (T.mk ⟨str "TestSuite/done!"⟩ Overrides.zero).name = .error .panic ∧
    (T.mk ⟨str "TestSuite/done!"⟩ Overrides.zero).Name = .error .panic := by
  refine ⟨by decide, ?_, ?_⟩
  · exact name_panics_on_trailing_marker (T.mk ⟨str "TestSuite/done!"⟩ Overrides.zero)
      (str "TestSuite/done") (by decide) (by decide)
  · exact name_panics_on_trailing_marker (T.mk ⟨str "TestSuite/done!"⟩ Overrides.zero)
      (str "TestSuite/done") (by decide) (by decide)

/-! ## Fixture construction (testman.go:126-179) -/

theorem initValue_unfold (t : T) (options : List PluginOption) (value parent : Value) :
    initValue t options value parent =
      match lookupNew value parent with
      | .error a => ⟨[.visit value parent], some a, value⟩
      | .ok (some methodNew) => initWithNew t options value parent methodNew
      | .ok none =>
        match value with
        | .mk typ newType newCall canSet (.struct fields) =>
          ⟨.visit value parent :: (initFields t options parent.Elem fields 0).events,
            (initFields t options parent.Elem fields 0).abort,
            .mk typ newType newCall canSet
              (.struct (initFields t options parent.Elem fields 0).fields)⟩
        | _ => ⟨[.visit value parent], none, value⟩ := by
  cases value with
  | invalid => rfl
  | mk typ newType newCall canSet elem => cases elem <;> rfl

/-- On a settable node (as every member that `initValue` reaches is, line
171) where `New` is found (on the parent when the parent is valid, on the node
otherwise) with the signature
`(*testman.T, ...plugin.Option) -> the node's type`, `initValue` enters the
node, calls `New` once with the context `t` and the options it was given, sets
the node to what `New` returned and returns: no member is visited. -/
theorem initValue_custom_constructor (t : T) (options : List PluginOption)
    (value parent : Value) (methodNew : Method) (vtyp : RType)
    (hfound : lookupNew value parent = .ok (some methodNew))
    (htyp : value.Type = .ok vtyp)
    (hsig : methodNew.typ = ⟨[typeOfT, typeOfOptions], [vtyp], true⟩)
    (hset : value.CanSet = true) :
    (initValue t options value parent).events = [.visit value parent, .callNew t options] ∧
    (initValue t options value parent).abort = none ∧
    (initValue t options value parent).value = methodNew.call t options := by
  have hcall : methodNew.CallSlice t options = .ok (methodNew.call t options) := by
    simp [Method.CallSlice, hsig]
  rw [initValue_unfold]
  simp only [hfound, initWithNew, htyp, hsig, hcall]
  simp [hset]

/-- The settable member `memberWithNew`, constructed without a parent, is set
to what its `New` returns. -/
theorem initValue_custom_constructor_member :
    lookupNew memberWithNew .invalid = .ok (some memberNew) ∧
    memberWithNew.Type = .ok "DB" ∧
    memberNew.typ = ⟨[typeOfT, typeOfOptions], ["DB"], true⟩ ∧
    memberWithNew.CanSet = true ∧
    (initValue demoContext [⟨7⟩] memberWithNew .invalid).events =
      [.visit memberWithNew .invalid, .callNew demoContext [⟨7⟩]] ∧
    (initValue demoContext [⟨7⟩] memberWithNew .invalid).abort = none ∧
    (initValue demoContext [⟨7⟩] memberWithNew .invalid).value = memberNew.call demoContext [⟨7⟩] :=
  ⟨rfl, rfl, rfl, rfl,
    initValue_custom_constructor demoContext [⟨7⟩] memberWithNew .invalid memberNew "DB"
      rfl rfl rfl rfl⟩

/-- On a node that cannot be set, `New` is still called once and no member is
visited, but `value.Set` panics. -/
theorem initValue_custom_constructor_unsettable (t : T) (options : List PluginOption)
    (value parent : Value) (methodNew : Method) (vtyp : RType)
    (hfound : lookupNew value parent = .ok (some methodNew))
    (htyp : value.Type = .ok vtyp)
    (hsig : methodNew.typ = ⟨[typeOfT, typeOfOptions], [vtyp], true⟩)
    (hset : value.CanSet = false) :
    initValue t options value parent =
      ⟨[.visit value parent, .callNew t options], some .panic, value⟩ := by
  have hcall : methodNew.CallSlice t options = .ok (methodNew.call t options) := by
    simp [Method.CallSlice, hsig]
  rw [initValue_unfold]
  simp only [hfound, initWithNew, htyp, hsig, hcall]
  simp [hset]

/-- C4: the claim fails at the node `construct` itself hands to `initValue`,
`reflect.ValueOf(&v)` (line 118), which can never be set. For `V = Ctx` with a
parent and a `New` of exactly the required signature, found on the parent,
`construct` enters the node, calls `New` once with the context and the options
and visits no member, but `value.Set(res)` of line 156 panics: the node is left
as it was and is not the constructor's result. -/
theorem construct_root_constructor_result_not_set :
    lookupNew ctxShape.fresh parentCtx = .ok (some ctxNew) ∧
    ctxShape.fresh.Type = .ok "*Ctx" ∧
    ctxNew.typ = ⟨[typeOfT, typeOfOptions], ["*Ctx"], true⟩ ∧
    ctxShape.fresh.CanSet = false ∧
    (construct demoContext ctxShape (some parentCtx) [⟨7⟩]).events =
      [.visit ctxShape.fresh parentCtx, .callNew demoContext [⟨7⟩]] ∧
    (construct demoContext ctxShape (some parentCtx) [⟨7⟩]).abort = some .panic ∧
    (construct demoContext ctxShape (some parentCtx) [⟨7⟩]).value = ctxShape.fresh ∧
    (construct demoContext ctxShape (some parentCtx) [⟨7⟩]).value ≠
      ctxNew.call demoContext [⟨7⟩] := by
  refine ⟨rfl, rfl, rfl, rfl, rfl, rfl, rfl, ?_⟩
  intro h
  have h2 := congrArg (fun v : Value =>
    match v.Elem with
    | .struct (f :: _) => f.CanSet
    | _ => false) h
  revert h2
  decide

theorem initWithNew_visits (t : T) (options : List PluginOption) (value parent : Value)
    (methodNew : Method) (f q : Value)
    (h : CEvent.visit f q ∈ (initWithNew t options value parent methodNew).events) :
    f = value ∧ q = parent := by
  unfold initWithNew at h
  cases hty : value.Type with
  | error a => simpa [hty] using h
  | ok vtyp =>
    simp only [hty] at h
    split at h
    · simpa using h
    · cases hcs : methodNew.CallSlice t options with
      | error a => simpa [hcs] using h
      | ok res =>
        simp only [hcs] at h
        split at h <;> simpa using h

theorem initValue_visits_leaf (t : T) (options : List PluginOption) (value parent : Value)
    (hleaf : ∀ fields, value.Elem ≠ .struct fields) (f q : Value)
    (h : CEvent.visit f q ∈ (initValue t options value parent).events) :
    f = value ∧ q = parent := by
  rw [initValue_unfold] at h
  cases hl : lookupNew value parent with
  | error a => simpa [hl] using h
  | ok m =>
    cases m with
    | some m =>
      rw [hl] at h
      exact initWithNew_visits t options value parent m f q h
    | none =>
      rw [hl] at h
      cases value with
      | invalid => simpa using h
      | mk typ nt nc cs elem =>
        cases elem with
        | invalid => simpa using h
        | other => simpa using h
        | struct fields => exact absurd rfl (hleaf fields)

mutual
/-- Every node that `initValue` enters below the node it was called on can be
set: the loop over the members passes only the members with `CanSet()`. -/
theorem initValue_visits_settable (t : T) (options : List PluginOption) :
    ∀ (value parent f q : Value), CEvent.visit f q ∈ (initValue t options value parent).events →
      (f = value ∧ q = parent) ∨ f.CanSet = true
  | .invalid, parent, f, q, h =>
    Or.inl (initValue_visits_leaf t options .invalid parent (by simp [Value.Elem]) f q h)
  | .mk typ nt nc cs .invalid, parent, f, q, h =>
    Or.inl (initValue_visits_leaf t options _ parent (by simp [Value.Elem]) f q h)
  | .mk typ nt nc cs .other, parent, f, q, h =>
    Or.inl (initValue_visits_leaf t options _ parent (by simp [Value.Elem]) f q h)
  | .mk typ nt nc cs (.struct fields), parent, f, q, h => by
    have ih := initFields_visits_settable t options parent.Elem fields 0 f q
    rw [initValue_unfold] at h
    cases hl : lookupNew (Value.mk typ nt nc cs (.struct fields)) parent with
    | error a => left; simpa [hl] using h
    | ok m =>
      cases m with
      | some m =>
        rw [hl] at h
        exact Or.inl (initWithNew_visits t options _ parent m f q h)
      | none =>
        rw [hl] at h
        simp only [List.mem_cons, CEvent.visit.injEq] at h
        rcases h with h | h
        · exact Or.inl h
        · exact Or.inr (ih h)
/-- The members entered by the loop over the fields can be set. -/
theorem initFields_visits_settable (t : T) (options : List PluginOption) (parent : Elem) :
    ∀ (fields : List Value) (i : Nat) (f q : Value),
      CEvent.visit f q ∈ (initFields t options parent fields i).events → f.CanSet = true
  | [], i, f, q, h => by simp [initFields] at h
  | field :: rest, i, f, q, h => by
    have ih2 := initFields_visits_settable t options parent rest (i + 1) f q
    rw [initFields] at h
    by_cases hs : field.CanSet = true
    · simp only [hs, if_true] at h
      cases htp : (if parent.IsValid = true then parent.Field i else Except.ok Value.invalid) with
      | error a => simp [htp] at h
      | ok template =>
        have ih1 := initValue_visits_settable t options field template f q
        rw [htp] at h
        simp only at h
        cases ha : (initValue t options field template).abort with
        | some a =>
          simp only [ha] at h
          rcases ih1 h with ⟨rfl, _⟩ | h1
          · exact hs
          · exact h1
        | none =>
          simp only [ha, List.mem_append] at h
          rcases h with h | h
          · rcases ih1 h with ⟨rfl, _⟩ | h1
            · exact hs
            · exact h1
          · exact ih2 h
    · simp only [hs] at h
      exact ih2 h
end

theorem initFields_spec (t : T) (options : List PluginOption) (parent : Elem) :
    ∀ (fields templates : List Value) (i : Nat),
      templates.length = fields.length →
      (∀ k (hk : k < templates.length), templateAt parent (i + k) = .ok templates[k]) →
      (∀ p ∈ fields.zip templates, p.1.CanSet = true →
        (initValue t options p.1 p.2).abort = none) →
      initFields t options parent fields i =
        ⟨((fields.zip templates).filter (fun p => p.1.CanSet)).flatMap
            (fun p => (initValue t options p.1 p.2).events),
          none,
          (fields.zip templates).map
            (fun p => if p.1.CanSet then (initValue t options p.1 p.2).value else p.1)⟩ := by
  intro fields
  induction fields with
  | nil => intro templates i _ _ _; simp [initFields]
  | cons f rest ih =>
    intro templates i hlen htpl hab
    cases templates with
    | nil => simp at hlen
    | cons tp tps =>
      have hlen2 : tps.length = rest.length := by simpa using hlen
      have h0 : templateAt parent i = .ok tp := by
        have := htpl 0 (by simp)
        simpa using this
      have hrest := ih tps (i + 1) hlen2
        (fun k hk => by
          have := htpl (k + 1) (by simp; omega)
          simpa [Nat.add_assoc, Nat.add_comm 1 k] using this)
        (fun p hp hs => hab p (by simp [hp]) hs)
      rw [initFields]
      by_cases hs : f.CanSet = true
      · have ha := hab (f, tp) (by simp) hs
        simp only [templateAt] at h0
        simp [hs, h0, ha, hrest]
      · simp [hs, hrest]

theorem templateAt_invalid (fields : List Value) (i : Nat) :
    ∀ k (hk : k < (List.replicate fields.length Value.invalid).length),
      templateAt .invalid (i + k) = .ok (List.replicate fields.length Value.invalid)[k] := by
  intro k hk
  simp [templateAt, Elem.IsValid]

theorem templateAt_struct (templates : List Value) :
    ∀ k (hk : k < templates.length),
      templateAt (.struct templates) (0 + k) = .ok templates[k] := by
  intro k hk
  simp [templateAt, Elem.IsValid, Elem.Field, List.getElem?_eq_getElem hk]

/-- C5: a node without custom constructor. If it is not a struct it is left as
it is and nothing but the node itself is visited. If it is a struct, its
members are paired by position with the members of the parent when the parent
is present, and with the zero `reflect.Value` when it is not; as long as no
member construction aborts, exactly the settable members are constructed, once
each and in member order, each with the template of its own position, and the
members that cannot be set are neither visited nor changed. -/
theorem initValue_members (t : T) (options : List PluginOption) (value parent : Value)
    (hnew : lookupNew value parent = .ok none) :
    ((∀ fields, value.Elem ≠ .struct fields) →
      initValue t options value parent = ⟨[.visit value parent], none, value⟩) ∧
    (∀ typ newType newCall canSet fields templates,
      value = .mk typ newType newCall canSet (.struct fields) →
      ((parent.Elem = .invalid ∧ templates = List.replicate fields.length .invalid) ∨
        (parent.Elem = .struct templates ∧ templates.length = fields.length)) →
      (∀ p ∈ fields.zip templates, p.1.CanSet = true →
        (initValue t options p.1 p.2).abort = none) →
      initValue t options value parent =
        ⟨.visit value parent ::
            ((fields.zip templates).filter (fun p => p.1.CanSet)).flatMap
              (fun p => (initValue t options p.1 p.2).events),
          none,
          .mk typ newType newCall canSet (.struct ((fields.zip templates).map
            (fun p => if p.1.CanSet then (initValue t options p.1 p.2).value else p.1)))⟩) := by
  constructor
  · intro hns
    rw [initValue_unfold, hnew]
    cases value with
    | invalid => rfl
    | mk typ newType newCall canSet elem =>
      cases elem with
      | invalid => rfl
      | other => rfl
      | struct fields => exact absurd rfl (hns fields)
  · intro typ newType newCall canSet fields templates hv hpar hok
    subst hv
    rw [initValue_unfold, hnew]
    rcases hpar with ⟨hp, ht⟩ | ⟨hp, hl⟩
    · subst ht
      have h := initFields_spec t options .invalid fields
        (List.replicate fields.length .invalid) 0 (by simp) (templateAt_invalid fields 0) hok
      simp only [hp, h]
    · have h := initFields_spec t options (.struct templates) fields templates 0 hl
        (templateAt_struct templates) hok
      simp only [hp, h]

/-- Witness of C5: `demoFixture` constructed from a parent of the same shape.
The plain member and the member with `New` are constructed, in this order,
each from the parent member at its position; the read-only member is skipped
and stays as it was. -/
theorem initValue_members_witness :
    lookupNew demoFixture demoFixture = .ok none ∧
    initValue demoContext [] demoFixture demoFixture =
      ⟨[.visit demoFixture demoFixture, .visit plainMember plainMember,
          .visit memberWithNew memberWithNew, .callNew demoContext []],
        none,
        .mk "Fixture" none (fun _ _ => .invalid) true
          (.struct [plainMember, readOnlyMember, builtDB])⟩ :=
  ⟨rfl,
    ((initValue_members demoContext [] demoFixture demoFixture rfl).2
      "Fixture" none (fun _ _ => .invalid) true
      [plainMember, readOnlyMember, memberWithNew]
      [plainMember, readOnlyMember, memberWithNew] rfl (Or.inr ⟨rfl, rfl⟩)
      (by
        intro p hp _
        simp only [List.zip_cons_cons, List.zip_nil_right, List.mem_cons, List.mem_singleton,
          List.not_mem_nil, or_false] at hp
        rcases hp with rfl | rfl | rfl <;> rfl)).trans rfl⟩

/-- The checks that `initValue` does make: a `New` with a parameter count
other than two, a first parameter other than `*testman.T`, or a result list
other than the node's type alone is reported with `Fatalf` and not called. -/
theorem initValue_rejects_checked_signature (t : T) (options : List PluginOption)
    (value parent : Value) (methodNew : Method) (vtyp : RType)
    (hfound : lookupNew value parent = .ok (some methodNew))
    (htyp : value.Type = .ok vtyp)
    (hbad : methodNew.typ.In.length ≠ 2 ∨ methodNew.typ.In[0]? ≠ some typeOfT ∨
      methodNew.typ.Out ≠ [vtyp]) :
    initValue t options value parent =
      ⟨[.visit value parent, .fatalf vtyp], some .goexit, value⟩ := by
  rw [initValue_unfold]
  simp only [hfound, initWithNew, htyp]
  have hcond : (!(methodNew.typ.In.length == 2 && methodNew.typ.In[0]? == some typeOfT) ||
      !(methodNew.typ.Out.length == 1 && methodNew.typ.Out[0]? == some vtyp)) = true := by
    rcases hbad with h | h | h
    · simp [h]
    · simp [h]
    · have : ¬ (methodNew.typ.Out.length = 1 ∧ methodNew.typ.Out[0]? = some vtyp) := by
        rintro ⟨h1, h2⟩
        apply h
        match hO : methodNew.typ.Out, h1, h2 with
        | [x], _, h2 => simp [hO] at h2; simp [h2]
      simp only [Bool.or_eq_true, Bool.not_eq_true', Bool.and_eq_false_iff, beq_eq_false_iff_ne,
        ne_eq]
      right
      by_cases hl : methodNew.typ.Out.length = 1
      · right
        intro h2
        exact this ⟨hl, h2⟩
      · left
        exact hl
  rw [if_pos hcond]

/-- C6: the validation is not strict. A `New` whose second parameter is an
`int`, and a `New` whose variadic parameter is a list of `int`, both pass the
checks of lines 141-144: no `Fatalf` is reported. `New` is not called either:
`CallSlice` panics. -/
theorem initValue_unchecked_second_parameter :
    (initValue demoContext [] memberWithIntNew .invalid).events.any CEvent.isFatalf = false ∧
    (initValue demoContext [] memberWithIntNew .invalid).events.any CEvent.isCallNew = false ∧
    (initValue demoContext [] memberWithIntNew .invalid).abort = some .panic ∧
    (initValue demoContext [] memberWithIntsNew .invalid).events.any CEvent.isFatalf = false ∧
    (initValue demoContext [] memberWithIntsNew .invalid).events.any CEvent.isCallNew = false ∧
    (initValue demoContext [] memberWithIntsNew .invalid).abort = some .panic := by
  decide

/-! ## The suite runner (testman.go:21-100) -/

theorem callSuiteHook_quiet {S C P Hk : Type} (env : Env C P Hk) (st : SuiteType S C)
    (tests : List (suiteTest S C)) (hq : Quiet env st tests) (c : C) (s : S) (h : Hook) :
    (callSuiteHook env st c s h).abort = none ∧
    (callSuiteHook env st c s h).events = ownCall st h s c := by
  rcases hq.own h with ha | ⟨f, hf, hn⟩
  · simp [callSuiteHook, ownCall, ha]
  · simp [callSuiteHook, ownCall, hf, hn]

theorem ownCall_hook {S C Hk : Type} (st : SuiteType S C) (h : Hook) (s : S) (c : C) :
    ∀ e ∈ (ownCall st h s c : List (Event S C Hk)), e = .suiteHook h s c := by
  intro e he
  unfold ownCall at he
  split at he <;> simp_all

theorem ownCall_countP {S C Hk : Type} (st : SuiteType S C) (h k : Hook) (s : S) (c : C) :
    List.countP (Event.isHooks k) (ownCall st h s c : List (Event S C Hk)) = 0 := by
  rw [List.countP_eq_zero]
  intro e he
  rw [ownCall_hook st h s c e he]
  simp [Event.isHooks]

theorem suiteSubTest_quiet {S C P Hk : Type} (env : Env C P Hk) (st : SuiteType S C)
    (tests : List (suiteTest S C)) (hq : Quiet env st tests) (tt : C) (suite clone : S)
    (handle : suiteTest S C) (hh : handle ∈ tests) (t : TestingT) :
    (suiteSubTest env st tt suite clone handle t).abort = none ∧
    (∀ e ∈ (suiteSubTest env st tt suite clone handle t).events,
      e.hook? ≠ some .BeforeAll ∧ e.hook? ≠ some .AfterAll) ∧
    (suiteSubTest env st tt suite clone handle t).events.countP (Event.isHooks .BeforeEach) = 1 ∧
    (suiteSubTest env st tt suite clone handle t).events.countP (Event.isHooks .AfterEach) = 1 := by
  obtain ⟨subT0, hc⟩ := hq.construct ⟨t, Overrides.zero⟩ (some tt) []
  have hb := fun c s h => callSuiteHook_quiet env st tests hq c s h
  simp only [suiteSubTest, hc, hq.hooks, (hb _ _ _).1, (hb _ _ _).2, hq.bodies handle hh,
    joinAbort]
  refine ⟨trivial, ?_, ?_, ?_⟩
  · intro e he
    simp only [List.cons_append, List.mem_cons, List.mem_append, List.append_assoc,
      List.nil_append, List.mem_singleton, List.not_mem_nil, or_false] at he
    rcases he with rfl | he | rfl | he | rfl
    · simp [Event.hook?]
    · rw [ownCall_hook _ _ _ _ e he]; simp [Event.hook?]
    · simp [Event.hook?]
    · rw [ownCall_hook _ _ _ _ e he]; simp [Event.hook?]
    · simp [Event.hook?]
  · simp [List.countP_cons, List.countP_append, ownCall_countP, Event.isHooks]
  · simp [List.countP_cons, List.countP_append, ownCall_countP, Event.isHooks]

theorem tRun_quiet {S C Hk : Type} (t : TestingT) (name : GoString)
    (f : TestingT → Trace S C Hk) (h : (f (t.sub name)).abort = none) :
    tRun t name f =
      ⟨.enter (t.sub name) :: (f (t.sub name)).events ++ [.leave (t.sub name)], none⟩ := by
  simp [tRun, h]

theorem suiteLoop_quiet {S C P Hk : Type} (env : Env C P Hk) (st : SuiteType S C)
    (tests : List (suiteTest S C)) (hq : Quiet env st tests) (tt : C) (suite : S)
    (t : TestingT) :
    ∀ rest : List (suiteTest S C), (∀ h ∈ rest, h ∈ tests) →
    (suiteLoop env st tt suite t rest).abort = none ∧
    (∀ e ∈ (suiteLoop env st tt suite t rest).events,
      e.hook? ≠ some .BeforeAll ∧ e.hook? ≠ some .AfterAll) ∧
    (suiteLoop env st tt suite t rest).events.countP (Event.isHooks .BeforeEach) = rest.length ∧
    (suiteLoop env st tt suite t rest).events.countP (Event.isHooks .AfterEach) = rest.length := by
  intro rest
  induction rest with
  | nil => intro _; simp [suiteLoop]
  | cons handle rest ih =>
    intro hsub
    have hh : handle ∈ tests := hsub handle (by simp)
    obtain ⟨i1, i2, i3, i4⟩ := ih (fun h hm => hsub h (by simp [hm]))
    have key := fun clone => suiteSubTest_quiet env st tests hq tt suite clone handle hh
      (t.sub handle.Name)
    simp only [suiteLoop]
    rw [tRun_quiet _ _ _ (key _).1]
    simp only [i1]
    refine ⟨trivial, ?_, ?_, ?_⟩
    · intro e he
      simp only [List.cons_append, List.mem_cons, List.mem_append, List.mem_singleton,
        List.not_mem_nil, or_false] at he
      rcases he with rfl | (he | rfl) | he
      · simp [Event.hook?]
      · exact (key _).2.1 e he
      · simp [Event.hook?]
      · exact i2 e he
    · simp [List.countP_cons, List.countP_append, (key _).2.2.1, i3, Event.isHooks]
      omega
    · simp [List.countP_cons, List.countP_append, (key _).2.2.2, i4, Event.isHooks]
      omega

/-- C1: in the sequential model in which nothing aborts, a suite run without
discovered test only logs the warning. With at least one test the trace is
`pre ++ mid ++ post`: `pre` is the merged `HookSet.BeforeAll` followed by the
suite's own `BeforeAll` (when declared), `post` is the merged
`HookSet.AfterAll` followed by the suite's own `AfterAll` (when declared), and
`mid`, which holds the `BeforeEach` and the `AfterEach` of every test, holds no
`BeforeAll` and no `AfterAll`. So each of the two runs once, `BeforeAll` before
any `BeforeEach` and `AfterAll` after every `AfterEach`. -/
theorem Suite_lifecycle_order {S C P Hk : Type} (env : Env C P Hk) (st : SuiteType S C)
    (t : TestingT) (options : List PluginOption) (tests : List (suiteTest S C))
    (hcol : collectSuiteTests st t = .ok tests) (hq : Quiet env st tests) :
    (tests = [] →
      Suite env st t options = ⟨[.log t (str "warn: no tests to run")], none⟩) ∧
    (tests ≠ [] → ∃ tt mid,
      env.construct ⟨t, Overrides.zero⟩ none options = .ok tt ∧
      (Suite env st t options).abort = none ∧
      (Suite env st t options).events =
        (.hooks .BeforeAll (env.Merge (env.Collect tt)).Hooks ::
          ownCall st .BeforeAll st.zero tt) ++ mid ++
        (.hooks .AfterAll (env.Merge (env.Collect tt)).Hooks ::
          ownCall st .AfterAll (callSuiteHook env st tt st.zero .BeforeAll).suite tt) ∧
      (∀ e ∈ mid, e.hook? ≠ some .BeforeAll ∧ e.hook? ≠ some .AfterAll) ∧
      mid.countP (Event.isHooks .BeforeEach) = tests.length ∧
      mid.countP (Event.isHooks .AfterEach) = tests.length) := by
  constructor
  · intro h0
    simp [Suite, hcol, h0]
  · intro hne
    obtain ⟨tt, hc⟩ := hq.construct ⟨t, Overrides.zero⟩ none options
    have hb := fun c s h => callSuiteHook_quiet env st tests hq c s h
    have hl := suiteLoop_quiet env st tests hq tt
      (callSuiteHook env st tt st.zero .BeforeAll).suite (t.sub wrapperTestName) tests
      (fun _ hm => hm)
    have hlen : tests.length ≠ 0 := by simpa using hne
    have hw := tRun_quiet t wrapperTestName (fun t => suiteLoop env st tt
      (callSuiteHook env st tt st.zero .BeforeAll).suite t tests) hl.1
    refine ⟨tt, (tRun t wrapperTestName (fun t => suiteLoop env st tt
      (callSuiteHook env st tt st.zero .BeforeAll).suite t tests)).events, hc, ?_, ?_, ?_, ?_, ?_⟩
    · simp [Suite, hcol, hlen, hc, hq.hooks, (hb _ _ _).1, hw]
    · simp [Suite, hcol, hlen, hc, hq.hooks, (hb _ _ _).1, (hb _ _ _).2, hw]
    · rw [hw]
      intro e he
      simp only [List.cons_append, List.mem_cons, List.mem_append, List.mem_singleton,
        List.not_mem_nil, or_false] at he
      rcases he with rfl | he | rfl
      · simp [Event.hook?]
      · exact hl.2.1 e he
      · simp [Event.hook?]
    · rw [hw]
      simp [List.countP_cons, List.countP_append, hl.2.2.1, Event.isHooks]
    · rw [hw]
      simp [List.countP_cons, List.countP_append, hl.2.2.2, Event.isHooks]

theorem demo_quiet : Quiet demoEnv demoSuite [demoTest] where
  construct := fun _ _ _ => ⟨_, rfl⟩
  hooks := fun _ _ => rfl
  own := fun _ => Or.inr ⟨_, rfl, fun _ _ => rfl⟩
  bodies := by
    intro handle hm s c
    simp only [List.mem_singleton] at hm
    subst hm
    rfl

/-- Witness of C1: the suite `demoSuite` with its one test. -/
theorem Suite_lifecycle_order_witness :
    collectSuiteTests demoSuite demoT = .ok [demoTest] ∧
    Quiet demoEnv demoSuite [demoTest] ∧
    (([demoTest] : List (suiteTest Nat T)) ≠ [] → ∃ tt mid,
      demoEnv.construct ⟨demoT, Overrides.zero⟩ none [] = .ok tt ∧
      (Suite demoEnv demoSuite demoT []).abort = none ∧
      (Suite demoEnv demoSuite demoT []).events =
        (.hooks .BeforeAll (demoEnv.Merge (demoEnv.Collect tt)).Hooks ::
          ownCall demoSuite .BeforeAll demoSuite.zero tt) ++ mid ++
        (.hooks .AfterAll (demoEnv.Merge (demoEnv.Collect tt)).Hooks ::
          ownCall demoSuite .AfterAll
            (callSuiteHook demoEnv demoSuite tt demoSuite.zero .BeforeAll).suite tt) ∧
      (∀ e ∈ mid, e.hook? ≠ some .BeforeAll ∧ e.hook? ≠ some .AfterAll) ∧
      mid.countP (Event.isHooks .BeforeEach) = [demoTest].length ∧
      mid.countP (Event.isHooks .AfterEach) = [demoTest].length) :=
  ⟨rfl, demo_quiet,
    (Suite_lifecycle_order demoEnv demoSuite demoT [] [demoTest] rfl demo_quiet).2⟩

/-- C2: the test body does not receive the per-test clone. On `demoSuite`,
whose `Clone` returns the suite with its counter raised to 1, the suite methods
`BeforeEach` and `AfterEach` are given the clone (1) and the test body is given
the suite value itself (0). -/
theorem Suite_body_receives_suite_not_clone :
    (Suite demoEnv demoSuite demoT []).events.filterMap Event.testSuite? = [0] ∧
    (Suite demoEnv demoSuite demoT []).events.filterMap (Event.hookSuite? .BeforeEach) = [1] ∧
    (Suite demoEnv demoSuite demoT []).events.filterMap (Event.hookSuite? .AfterEach) = [1] := by
  decide

/-- C3: once `construct` has returned the child context and both `BeforeEach`
hooks have returned, the sub-test of a test does, whatever way the body ends
(return, `runtime.Goexit` of a fatal failure or skip, panic): merged
`HookSet.BeforeEach`, the suite's `BeforeEach` (when declared), the body, the
call of `callSuiteHook` for `AfterEach`, merged `HookSet.AfterEach`. A
declared suite `AfterEach` is called once there, and `HookSet.AfterEach` is
invoked once. -/
theorem suiteSubTest_each_hooks {S C P Hk : Type} (env : Env C P Hk) (st : SuiteType S C)
    (tt : C) (suite suiteClone : S) (handle : suiteTest S C) (t : TestingT) (subT0 : C)
    (hc : env.construct ⟨t, Overrides.zero⟩ (some tt) [] = .ok subT0)
    (hb : env.runHooks (env.Merge (env.Collect subT0)).Hooks .BeforeEach = none)
    (hs : (callSuiteHook env st
      (env.setOverrides subT0 (env.Merge (env.Collect subT0)).Overrides)
      suiteClone .BeforeEach).abort = none) :
    (suiteSubTest env st tt suite suiteClone handle t).events =
      .hooks .BeforeEach (env.Merge (env.Collect subT0)).Hooks ::
        ownCall st .BeforeEach suiteClone
          (env.setOverrides subT0 (env.Merge (env.Collect subT0)).Overrides) ++
      [.test handle.Name suite
        (env.setOverrides subT0 (env.Merge (env.Collect subT0)).Overrides)] ++
      (callSuiteHook env st (env.setOverrides subT0 (env.Merge (env.Collect subT0)).Overrides)
        (callSuiteHook env st
          (env.setOverrides subT0 (env.Merge (env.Collect subT0)).Overrides)
          suiteClone .BeforeEach).suite .AfterEach).events ++
      [.hooks .AfterEach (env.Merge (env.Collect subT0)).Hooks] ∧
    (∀ f, st.MethodByName .AfterEach = .valid f →
      (callSuiteHook env st (env.setOverrides subT0 (env.Merge (env.Collect subT0)).Overrides)
        (callSuiteHook env st
          (env.setOverrides subT0 (env.Merge (env.Collect subT0)).Overrides)
          suiteClone .BeforeEach).suite .AfterEach).events =
      [.suiteHook .AfterEach
        (callSuiteHook env st
          (env.setOverrides subT0 (env.Merge (env.Collect subT0)).Overrides)
          suiteClone .BeforeEach).suite
        (env.setOverrides subT0 (env.Merge (env.Collect subT0)).Overrides)]) ∧
    (suiteSubTest env st tt suite suiteClone handle t).events.countP
      (Event.isHooks .AfterEach) = 1 := by
  have hown : (callSuiteHook env st
      (env.setOverrides subT0 (env.Merge (env.Collect subT0)).Overrides)
      suiteClone .BeforeEach).events = ownCall st .BeforeEach suiteClone
        (env.setOverrides subT0 (env.Merge (env.Collect subT0)).Overrides) := by
    revert hs
    unfold callSuiteHook ownCall
    cases st.MethodByName .BeforeEach with
    | absent => simp
    | wrongSig => cases env.Fatalf _ <;> simp
    | valid f => simp
  have hcount : ∀ (c : C) (s : S) (h : Hook),
      List.countP (Event.isHooks .AfterEach : Event S C Hk → Bool)
        (callSuiteHook env st c s h).events = 0 := by
    intro c s h
    rw [List.countP_eq_zero]
    intro e he
    unfold callSuiteHook at he
    cases hm : st.MethodByName h with
    | absent => simp [hm] at he
    | wrongSig =>
      cases hf : env.Fatalf c <;> simp [hm, hf] at he <;> simp [he, Event.isHooks]
    | valid f => simp [hm] at he; simp [he, Event.isHooks]
  refine ⟨?_, ?_, ?_⟩
  · simp only [suiteSubTest, hc, hb, hs, hown]
  · intro f hf
    simp [callSuiteHook, hf]
  · simp only [suiteSubTest, hc, hb, hs, hown]
    simp [List.countP_cons, List.countP_append, ownCall_countP, hcount, Event.isHooks]

/-- Witness of C3: on `demoSuite` with a test body that panics, both
`AfterEach` hooks still run after the body. -/
theorem suiteSubTest_each_hooks_witness :
    panickingTest.F 0 ⟨demoT.sub (str "TestA"), demoPlugin.Overrides⟩ = some .panic ∧
    (suiteSubTest demoEnv demoSuite demoContext 0 1 panickingTest
      (demoT.sub (str "TestA"))).events =
      [.hooks .BeforeEach 1,
        .suiteHook .BeforeEach 1 ⟨demoT.sub (str "TestA"), demoPlugin.Overrides⟩,
        .test (str "TestA") 0 ⟨demoT.sub (str "TestA"), demoPlugin.Overrides⟩,
        .suiteHook .AfterEach 1 ⟨demoT.sub (str "TestA"), demoPlugin.Overrides⟩,
        .hooks .AfterEach 1] :=
  ⟨rfl,
    (suiteSubTest_each_hooks demoEnv demoSuite demoContext 0 1 panickingTest
      (demoT.sub (str "TestA")) ⟨demoT.sub (str "TestA"), Overrides.zero⟩ rfl rfl rfl).1.trans
      rfl⟩

/-- C7: the merged table is not installed on the root context. On `demoSuite`
with a plugin whose `Name` interceptor answers `intercepted`, the root context
given to the suite's `BeforeAll` and `AfterAll` answers `Name()` with the host
name, whereas the context given to `BeforeEach`, on which line 54 installs the
table, and the root context with the merged table installed answer
`intercepted`. -/
theorem Suite_root_context_lacks_merged_table :
    ((Suite demoEnv demoSuite demoT []).events.filterMap
      (Event.hookContext? .BeforeAll)).map T.Name = [.ok (str "TestSuite")] ∧
    ((Suite demoEnv demoSuite demoT []).events.filterMap
      (Event.hookContext? .AfterAll)).map T.Name = [.ok (str "TestSuite")] ∧
    ((Suite demoEnv demoSuite demoT []).events.filterMap
      (Event.hookContext? .BeforeEach)).map T.Name = [.ok (str "intercepted")] ∧
    T.Name ⟨demoT, (demoEnv.Merge (demoEnv.Collect ⟨demoT, Overrides.zero⟩)).Overrides⟩ =
      .ok (str "intercepted") :=
  ⟨rfl, rfl, rfl, rfl⟩

/-- C8: `Run` does not install the merged table on the child context. With a
plugin whose `Name` interceptor answers `intercepted`, the context given to
the body answers `Name()` with the host name of the sub-test, whereas the same
context with the merged table installed answers `intercepted`. -/
theorem Run_child_context_lacks_merged_table :
    (((Run demoEnv demoContext (str "sub") (fun _ => none) :
      Trace Nat T Nat).events.filterMap Event.bodyContext?).map T.Name =
        [.ok (str "TestSuite/sub")]) ∧
    T.Name ⟨demoT.sub (str "sub"),
      (demoEnv.Merge (demoEnv.Collect ⟨demoT.sub (str "sub"), Overrides.zero⟩)).Overrides⟩ =
      .ok (str "intercepted") :=
  ⟨rfl, rfl⟩

end Testman
